import Mathlib

/-!
Verification of the BOLT `RewriteInstance` interface (RewriteInstance.h).

The repository ships only the header `src/RewriteInstance.h`; apart from the
inline `getFileOffsetFor`, the member-function bodies are not part of the
sources.  Operations whose bodies are missing are therefore modelled from the
specification (their doc comments say so explicitly); `getFileOffsetFor` and
the static data (`SectionsToOverwrite`) are embedded directly from the header.

Machine integers (`uint64_t`) are modelled as `Nat` with an explicit
`% 2 ^ 64` where overflow can occur.
-/

namespace Bolt

/-- Modulus of `uint64_t` arithmetic. -/
def U64 : Nat := 2 ^ 64

/-- Embedded from RewriteInstance.h lines 43-48: memory/file footprint of one
loadable segment. -/
structure SegmentInfo where
  Address : Nat
  Size : Nat
  FileOffset : Nat
  FileSize : Nat
deriving Repr, DecidableEq

/-- The fields of `RewriteInstance` that `getFileOffsetFor` reads
(RewriteInstance.h lines 450-453). -/
structure LayoutState where
  NewTextSegmentAddress : Nat
  NewTextSegmentOffset : Nat
  NewTextSegmentSize : Nat
deriving Repr, DecidableEq

/-- Embedded from RewriteInstance.h lines 360-364.  The C++ function asserts
`Address >= NewTextSegmentAddress` and then returns
`Address - NewTextSegmentAddress + NewTextSegmentOffset` in `uint64_t`
arithmetic.  The assertion failure is modelled as `none`; there is no guard or
sentinel for addresses below the new text segment. -/
def getFileOffsetFor (L : LayoutState) (Address : Nat) : Option Nat :=
  if L.NewTextSegmentAddress ≤ Address then
    some ((Address - L.NewTextSegmentAddress + L.NewTextSegmentOffset) % U64)
  else
    none

/-- Embedded from RewriteInstance.h lines 386-395: the static list of sections
overwritten wholesale when updating debug info. -/
def SectionsToOverwrite : List String :=
  [".shstrtab", ".symtab", ".strtab", ".debug_aranges",
   ".debug_line", ".debug_loc", ".debug_ranges", ".gdb_index"]

/-- Modelled from the spec: the body of `willOverwriteSection` (declared at
RewriteInstance.h lines 371-373) is not in the excerpted sources; per the spec
the sections regenerated wholesale are exactly those named in the static
overwrite list, so the function scans `SectionsToOverwrite` for the given
name. -/
def willOverwriteSection (SectionName : String) : Bool :=
  SectionsToOverwrite.any (fun Name => Name == SectionName)

/-- A section of the output binary as seen by address translation: its
virtual-address range, its file offset, and whether its contents are mapped in
the file at all (`false` for `.bss`, whose bytes occupy no file space). -/
structure SectionDesc where
  name : String
  address : Nat
  size : Nat
  fileOffset : Nat
  hasFileMapping : Bool
deriving Repr, DecidableEq

/-- Containment of a virtual address in a section's address range. -/
def sectionContains (S : SectionDesc) (Address : Nat) : Bool :=
  decide (S.address ≤ Address ∧ Address < S.address + S.size)

/-- Modelled from the spec: the body of `getFileOffsetForAddress` (declared at
RewriteInstance.h lines 366-369) is not in the excerpted sources; per the
header comment and the spec it returns the file offset corresponding to a
virtual address, and 0 when the address has no mapping in the file, including
being part of the `.bss` section.  It is a total function: every input yields
a value, never a crash. -/
def getFileOffsetForAddress (sections : List SectionDesc) (Address : Nat) : Nat :=
  match sections.find? (fun S => sectionContains S Address) with
  | some S => if S.hasFileMapping then Address - S.address + S.fileOffset else 0
  | none => 0

/-- An emitted function: its address range in the original binary and the
address its code was given in the output binary. -/
structure EmittedFunction where
  oldAddress : Nat
  size : Nat
  newAddress : Nat
deriving Repr, DecidableEq

/-- Modelled from the spec: `getNewFunctionAddress` (declared at
RewriteInstance.h lines 207-209) maps an address in the original binary to the
corresponding address in the new binary; for an address inside an emitted
function this is the function's new address plus the offset of the address
within the function. -/
def getNewFunctionAddress (F : EmittedFunction) (OldAddress : Nat) : Nat :=
  F.newAddress + (OldAddress - F.oldAddress)

/-- Terminal state of a function at the end of a rewrite run (spec 4.3). -/
inductive TerminalState where
  | emittedFitting
  | emittedSplit
  | preservedVerbatim
deriving Repr, DecidableEq

/-- The per-function data the convergence engine consults: original address
(the key of `BinaryFunctions`), the size budget of the original footprint,
whether disassembly succeeded (`isSimple`), the code size produced by the
first (plain) emission attempt, and the size of the hot part produced by the
second (split) emission attempt. -/
structure FuncRecord where
  address : Nat
  origSize : Nat
  isSimple : Bool
  emittedSize : Nat
  splitHotSize : Nat
deriving Repr, DecidableEq

/-- Modelled from the spec: the large-function set recorded by
`checkLargeFunctions` (RewriteInstance.h lines 188-194, 522-525) — the
addresses of the emitted (simple) functions whose emitted size exceeds the
size budget reserved for them in the original layout. -/
def largeFunctionsOf (funcs : List FuncRecord) : List Nat :=
  (funcs.filter (fun F => F.isSimple && decide (F.origSize < F.emittedSize))).map
    (fun F => F.address)

/-- Modelled from the spec: `checkLargeFunctions` annotates the too-large
functions, records their addresses in the large-function set, and returns
whether any function was annotated (which triggers the second, split-emission
pass). -/
def checkLargeFunctions (funcs : List FuncRecord) : Bool × List Nat :=
  (!(largeFunctionsOf funcs).isEmpty, largeFunctionsOf funcs)

/-- Modelled from the spec: the terminal state of one function given the
large-function set.  A function that failed disassembly is preserved verbatim;
a function annotated too-large is re-emitted split and kept split when its hot
part fits, otherwise preserved verbatim; a fitting function is emitted in
place. -/
def terminalState (larges : List Nat) (F : FuncRecord) : TerminalState :=
  if F.isSimple = false then TerminalState.preservedVerbatim
  else if F.address ∈ larges then
    if F.splitHotSize ≤ F.origSize then TerminalState.emittedSplit
    else TerminalState.preservedVerbatim
  else if F.emittedSize ≤ F.origSize then TerminalState.emittedFitting
  else TerminalState.preservedVerbatim

/-- Modelled from the spec: the outcome of a rewrite run (`run` then
`rewriteFile`, RewriteInstance.h lines 121-122 and 200-205) — every discovered
function, keyed by its original address, paired with its terminal state. -/
def runStates (funcs : List FuncRecord) : List (Nat × TerminalState) :=
  funcs.map (fun F => (F.address, terminalState (checkLargeFunctions funcs).2 F))

/-- Modelled from the spec: the number of full emission attempts a run
performs — a second attempt happens exactly when `checkLargeFunctions`
returned true after the first. -/
def runEmissionAttempts (funcs : List FuncRecord) : Nat :=
  if (checkLargeFunctions funcs).1 then 2 else 1

/-- The fields of `RewriteInstance` that `reset` touches: the split hints
(`LargeFunctions`) and the transient per-pass rewrite state. -/
structure RewriteInstanceState where
  LargeFunctions : List Nat
  FailedAddresses : List Nat
  SectionPatchers : List String
  NewTextSegmentAddress : Nat
  NewTextSegmentOffset : Nat
  NextAvailableAddress : Nat
deriving Repr, DecidableEq

/-- Modelled from the spec: `reset` (RewriteInstance.h lines 116-119) clears
all state except for split hints, so that a second pass can run with the
function-splitting information intact. -/
def reset (s : RewriteInstanceState) : RewriteInstanceState :=
  { LargeFunctions := s.LargeFunctions
    FailedAddresses := []
    SectionPatchers := []
    NewTextSegmentAddress := 0
    NewTextSegmentOffset := 0
    NextAvailableAddress := 0 }

/-- A registered binary function as seen by address lookup: its start address,
its tight size, and its maximum size (the space up to the next known
object). -/
structure BFun where
  address : Nat
  size : Nat
  maxSize : Nat
deriving Repr, DecidableEq

/-- The documented boundary policy of `getBinaryFunctionContainingAddress`
(RewriteInstance.h lines 217-236): a function matches an address when the
address lies in its range (its tight size, or its maximum size when
`UseMaxSize`), or, when `CheckPastEnd`, the address is exactly one byte past
its last byte and no other function starts at that byte. -/
def bfunMatches (funcs : List BFun) (F : BFun) (Address : Nat)
    (CheckPastEnd UseMaxSize : Bool) : Bool :=
  let usedSize := if UseMaxSize then F.maxSize else F.size
  decide (F.address ≤ Address ∧ Address < F.address + usedSize) ||
    (CheckPastEnd && decide (Address = F.address + usedSize) &&
      !(funcs.any (fun G => decide (G.address = Address) && !(G == F))))

/-- Modelled from the spec: `getBinaryFunctionContainingAddress`
(RewriteInstance.h lines 217-236) returns a registered function matching the
address under the documented boundary policy, or `none` (`nullptr`) when no
registered function matches. -/
def getBinaryFunctionContainingAddress (funcs : List BFun) (Address : Nat)
    (CheckPastEnd UseMaxSize : Bool) : Option BFun :=
  funcs.find? (fun F => bfunMatches funcs F Address CheckPastEnd UseMaxSize)

/-- One relocation record together with the context `analyzeRelocation` reads:
its kind, its offset, its addend, the referenced symbol when one is present
(with its address), and the containing section's name and address for
section-relative fallback. -/
structure RelocationRef where
  relType : Nat
  offset : Nat
  addend : Int
  symbolName : Option String
  symbolAddress : Nat
  sectionName : String
  sectionAddress : Nat
deriving Repr, DecidableEq

/-- The five outputs `analyzeRelocation` sets on success
(RewriteInstance.h lines 260-270). -/
structure RelocAnalysis where
  SymbolName : String
  IsSectionRelocation : Bool
  SymbolAddress : Nat
  Addend : Int
  ExtractedValue : Nat
deriving Repr, DecidableEq

/-- Modelled from the spec: the body of `analyzeRelocation`
(RewriteInstance.h lines 260-270) is not in the excerpted sources; per the
spec it returns failure — `none`, not an exception or abort — for relocation
kinds outside the supported set, and on success resolves the referenced
symbol (falling back to section-relative addressing when no symbol is
present) and sets all five outputs.  `supported` classifies relocation kinds
and `extractValue` reads the relocated bits at an offset; both are parameters
of the model. -/
def analyzeRelocation (supported : Nat → Bool) (extractValue : Nat → Nat → Nat)
    (Rel : RelocationRef) : Option RelocAnalysis :=
  if supported Rel.relType then
    match Rel.symbolName with
    | some name =>
        some { SymbolName := name
               IsSectionRelocation := false
               SymbolAddress := Rel.symbolAddress
               Addend := Rel.addend
               ExtractedValue := extractValue Rel.relType Rel.offset }
    | none =>
        some { SymbolName := Rel.sectionName
               IsSectionRelocation := true
               SymbolAddress := Rel.sectionAddress
               Addend := Rel.addend
               ExtractedValue := extractValue Rel.relType Rel.offset }
  else
    none

end Bolt

namespace Bolt

/-- C10: the private helper `getFileOffsetFor` has the precondition
`Address >= NewTextSegmentAddress`, enforced by an assertion (modelled as
`none` on assertion failure); under that precondition it returns exactly
`Address - NewTextSegmentAddress + NewTextSegmentOffset` in `uint64`
arithmetic, with no guard or sentinel for addresses below the new text
segment. -/
theorem getFileOffsetFor_spec (L : LayoutState) (Address : Nat) :
    (L.NewTextSegmentAddress ≤ Address →
      getFileOffsetFor L Address =
        some ((Address - L.NewTextSegmentAddress + L.NewTextSegmentOffset) % U64)) ∧
    (Address < L.NewTextSegmentAddress → getFileOffsetFor L Address = none) := by
  refine ⟨fun h => ?_, fun h => ?_⟩
  · simp [getFileOffsetFor, h]
  · simp [getFileOffsetFor, Nat.not_le.mpr h]

theorem getFileOffsetFor_spec_witness :
    getFileOffsetFor ⟨4194304, 4096, 0⟩ 4194320 =
      some ((4194320 - 4194304 + 4096) % U64) :=
  (getFileOffsetFor_spec ⟨4194304, 4096, 0⟩ 4194320).1 (by decide)

/-- C9: `willOverwriteSection` returns true for exactly the section names in
the static overwrite list `SectionsToOverwrite` and false for every other
section name. -/
theorem willOverwriteSection_spec (SectionName : String) :
    willOverwriteSection SectionName = true ↔ SectionName ∈ SectionsToOverwrite := by
  constructor
  · intro h
    rcases List.any_eq_true.mp h with ⟨Name, hmem, hbeq⟩
    have heq : Name = SectionName := by simpa using hbeq
    exact heq ▸ hmem
  · intro h
    exact List.any_eq_true.mpr ⟨SectionName, h, by simp⟩

theorem willOverwriteSection_spec_witness :
    willOverwriteSection ".symtab" = true :=
  (willOverwriteSection_spec ".symtab").mpr (by decide)

/-- C4: `reset` clears all transient per-pass rewrite state while leaving the
large-function (split-hint) annotations unchanged: every address in the
`LargeFunctions` set before `reset` is still in the set after. -/
theorem reset_preserves_LargeFunctions (s : RewriteInstanceState) (a : Nat)
    (h : a ∈ s.LargeFunctions) :
    a ∈ (reset s).LargeFunctions ∧
      (reset s).FailedAddresses = [] ∧
      (reset s).SectionPatchers = [] ∧
      (reset s).NewTextSegmentAddress = 0 ∧
      (reset s).NewTextSegmentOffset = 0 ∧
      (reset s).NextAvailableAddress = 0 :=
  ⟨h, rfl, rfl, rfl, rfl, rfl⟩

theorem reset_preserves_LargeFunctions_witness :
    7 ∈ (reset ⟨[7], [1], [".text"], 2, 3, 4⟩).LargeFunctions ∧
      (reset ⟨[7], [1], [".text"], 2, 3, 4⟩).FailedAddresses = [] ∧
      (reset ⟨[7], [1], [".text"], 2, 3, 4⟩).SectionPatchers = [] ∧
      (reset ⟨[7], [1], [".text"], 2, 3, 4⟩).NewTextSegmentAddress = 0 ∧
      (reset ⟨[7], [1], [".text"], 2, 3, 4⟩).NewTextSegmentOffset = 0 ∧
      (reset ⟨[7], [1], [".text"], 2, 3, 4⟩).NextAvailableAddress = 0 :=
  reset_preserves_LargeFunctions ⟨[7], [1], [".text"], 2, 3, 4⟩ 7 (by decide)

/-- C6: for every virtual address with no mapping in the output file —
in particular every address inside a section without file contents such as
`.bss` — `getFileOffsetForAddress` returns the defined sentinel 0; being a
total function of its inputs, it never crashes or aborts. -/
theorem getFileOffsetForAddress_sentinel (sections : List SectionDesc) (Address : Nat)
    (h : ∀ S ∈ sections, sectionContains S Address = true → S.hasFileMapping = false) :
    getFileOffsetForAddress sections Address = 0 := by
  unfold getFileOffsetForAddress
  cases hf : sections.find? (fun S => sectionContains S Address) with
  | none => rfl
  | some S =>
      have hmem := List.mem_of_find?_eq_some hf
      have hpred := List.find?_some hf
      simp [h S hmem hpred]

theorem getFileOffsetForAddress_sentinel_witness :
    getFileOffsetForAddress [⟨".bss", 100, 10, 0, false⟩] 105 = 0 :=
  getFileOffsetForAddress_sentinel [⟨".bss", 100, 10, 0, false⟩] 105 (by decide)

/-- C5: within a section mapped in the output file (so not `.bss`), the
composed translation `getFileOffsetForAddress` after `getNewFunctionAddress`
sends every address inside an emitted function to the correct file offset of
the relocated byte — the section's file offset plus the byte's displacement
in the section — and it is injective on the function's address range, hence a
bijection onto its image. -/
theorem addressTranslation_roundtrip (sections : List SectionDesc)
    (S : SectionDesc) (F : EmittedFunction)
    (hfind : ∀ d, d < F.size →
      sections.find? (fun T => sectionContains T (F.newAddress + d)) = some S)
    (hmap : S.hasFileMapping = true)
    (hlo : S.address ≤ F.newAddress) :
    (∀ a, F.oldAddress ≤ a → a < F.oldAddress + F.size →
      getFileOffsetForAddress sections (getNewFunctionAddress F a) =
        (a - F.oldAddress) + (F.newAddress - S.address) + S.fileOffset) ∧
    (∀ a1 a2, F.oldAddress ≤ a1 → a1 < F.oldAddress + F.size →
      F.oldAddress ≤ a2 → a2 < F.oldAddress + F.size →
      getFileOffsetForAddress sections (getNewFunctionAddress F a1) =
        getFileOffsetForAddress sections (getNewFunctionAddress F a2) →
      a1 = a2) := by
  have key : ∀ a, F.oldAddress ≤ a → a < F.oldAddress + F.size →
      getFileOffsetForAddress sections (getNewFunctionAddress F a) =
        (a - F.oldAddress) + (F.newAddress - S.address) + S.fileOffset := by
    intro a h1 h2
    have hd : a - F.oldAddress < F.size := by omega
    have hff := hfind (a - F.oldAddress) hd
    unfold getNewFunctionAddress
    unfold getFileOffsetForAddress
    rw [hff]
    simp only [hmap, if_true]
    omega
  refine ⟨key, fun a1 a2 h1 h2 h3 h4 heq => ?_⟩
  rw [key a1 h1 h2, key a2 h3 h4] at heq
  omega

theorem addressTranslation_roundtrip_witness :
    getFileOffsetForAddress [⟨".text", 100, 50, 10, true⟩]
        (getNewFunctionAddress ⟨200, 4, 100⟩ 201) =
      (201 - 200) + (100 - 100) + 10 :=
  ((addressTranslation_roundtrip [⟨".text", 100, 50, 10, true⟩]
      ⟨".text", 100, 50, 10, true⟩ ⟨200, 4, 100⟩ (by decide) (by decide)
      (by decide)).1) 201 (by decide) (by decide)

/-- Characterization of `bfunMatches` as the documented boundary policy in
propositional form. -/
theorem bfunMatches_eq_true_iff (funcs : List BFun) (F : BFun) (Address : Nat)
    (CheckPastEnd UseMaxSize : Bool) :
    bfunMatches funcs F Address CheckPastEnd UseMaxSize = true ↔
      ((F.address ≤ Address ∧
          Address < F.address + (if UseMaxSize then F.maxSize else F.size)) ∨
        (CheckPastEnd = true ∧
          Address = F.address + (if UseMaxSize then F.maxSize else F.size) ∧
          ∀ G ∈ funcs, G ≠ F → G.address ≠ Address)) := by
  unfold bfunMatches
  simp only [Bool.or_eq_true, Bool.and_eq_true, decide_eq_true_eq,
    Bool.not_eq_true', List.any_eq_false, Bool.and_eq_false_iff,
    decide_eq_false_iff_not, Bool.not_eq_false, beq_iff_eq,
    beq_eq_false_iff_ne, ne_eq]
  tauto

/-- Totalization of the pairwise ordering of registered functions: any two
distinct functions in the map are ordered one way or the other. -/
theorem bfun_order_total (funcs : List BFun)
    (hord : List.Pairwise (fun F G => F.address + F.maxSize ≤ G.address) funcs) :
    ∀ F ∈ funcs, ∀ G ∈ funcs, F ≠ G →
      F.address + F.maxSize ≤ G.address ∨ G.address + G.maxSize ≤ F.address := by
  have h2 : List.Pairwise
      (fun F G : BFun =>
        F.address + F.maxSize ≤ G.address ∨ G.address + G.maxSize ≤ F.address)
      funcs := hord.imp Or.inl
  intro F hF G hG hne
  exact h2.forall (fun x y h => h.symm) hF hG hne

/-- A `find?` over a list returns the unique element satisfying the
predicate. -/
theorem find?_eq_some_of_unique {α : Type} (p : α → Bool) :
    ∀ (l : List α) (a : α), a ∈ l → p a = true →
      (∀ b ∈ l, p b = true → b = a) → l.find? p = some a := by
  intro l
  induction l with
  | nil =>
      intro a ha _ _
      cases ha
  | cons x xs ih =>
      intro a ha hpa huniq
      by_cases hx : p x = true
      · have hxa : x = a := huniq x (List.mem_cons_self x xs) hx
        rw [List.find?_cons_of_pos _ hx, hxa]
      · have hax : a ∈ xs := by
          cases List.mem_cons.mp ha with
          | inl h => exact absurd (h ▸ hpa) hx
          | inr h => exact h
        rw [List.find?_cons_of_neg _ hx]
        exact ih a hax hpa (fun b hb hpb => huniq b (List.mem_cons_of_mem x hb) hpb)

/-- Under the ordering and size invariants of the function map, at most one
registered function matches a given address under the boundary policy. -/
theorem bfunMatches_unique (funcs : List BFun) (Address : Nat)
    (CheckPastEnd UseMaxSize : Bool)
    (hord : List.Pairwise (fun F G => F.address + F.maxSize ≤ G.address) funcs)
    (hsz : ∀ F ∈ funcs, F.size ≤ F.maxSize) :
    ∀ F ∈ funcs, ∀ G ∈ funcs,
      bfunMatches funcs F Address CheckPastEnd UseMaxSize = true →
      bfunMatches funcs G Address CheckPastEnd UseMaxSize = true → F = G := by
  intro F hF G hG hmF hmG
  by_contra hne
  have horder := bfun_order_total funcs hord F hF G hG hne
  rw [bfunMatches_eq_true_iff] at hmF hmG
  obtain ⟨uF, huFeq⟩ : ∃ u, (if UseMaxSize then F.maxSize else F.size) = u := ⟨_, rfl⟩
  obtain ⟨uG, huGeq⟩ : ∃ u, (if UseMaxSize then G.maxSize else G.size) = u := ⟨_, rfl⟩
  have huF : uF ≤ F.maxSize := by
    rw [← huFeq]
    cases UseMaxSize
    · simpa using hsz F hF
    · simp
  have huG : uG ≤ G.maxSize := by
    rw [← huGeq]
    cases UseMaxSize
    · simpa using hsz G hG
    · simp
  rw [huFeq] at hmF
  rw [huGeq] at hmG
  rcases hmF with hFt | ⟨hcF, heF, hnoF⟩
  · rcases hmG with hGt | ⟨hcG, heG, hnoG⟩
    · omega
    · have hFA : F.address ≠ Address := fun h => hnoG F hF hne h
      omega
  · rcases hmG with hGt | ⟨hcG, heG, hnoG⟩
    · have hGA : G.address ≠ Address := fun h => hnoF G hG (Ne.symm hne) h
      omega
    · have hFA : F.address ≠ Address := fun h => hnoG F hF hne h
      have hGA : G.address ≠ Address := fun h => hnoF G hG (Ne.symm hne) h
      omega

/-- C7: `getBinaryFunctionContainingAddress` implements the documented
boundary policy: a function matches when the address is within its tight
bounds (or, with `UseMaxSize`, within the space up to the next known object),
or, with `CheckPastEnd`, when the address is exactly one byte past its last
byte and no other function starts at that byte; for a well-formed function
map (address-ordered, disjoint, size at most max size) the lookup returns
the matching function, and it returns `none` (`nullptr`) when no registered
function matches the address. -/
theorem getBinaryFunctionContainingAddress_spec (funcs : List BFun)
    (Address : Nat) (CheckPastEnd UseMaxSize : Bool)
    (hord : List.Pairwise (fun F G => F.address + F.maxSize ≤ G.address) funcs)
    (hsz : ∀ F ∈ funcs, F.size ≤ F.maxSize) :
    (∀ F, bfunMatches funcs F Address CheckPastEnd UseMaxSize = true ↔
      ((F.address ≤ Address ∧
          Address < F.address + (if UseMaxSize then F.maxSize else F.size)) ∨
        (CheckPastEnd = true ∧
          Address = F.address + (if UseMaxSize then F.maxSize else F.size) ∧
          ∀ G ∈ funcs, G ≠ F → G.address ≠ Address))) ∧
    (∀ F ∈ funcs, bfunMatches funcs F Address CheckPastEnd UseMaxSize = true →
      getBinaryFunctionContainingAddress funcs Address CheckPastEnd UseMaxSize =
        some F) ∧
    ((∀ F ∈ funcs, bfunMatches funcs F Address CheckPastEnd UseMaxSize = false) →
      getBinaryFunctionContainingAddress funcs Address CheckPastEnd UseMaxSize =
        none) := by
  refine ⟨fun F => bfunMatches_eq_true_iff funcs F Address CheckPastEnd UseMaxSize,
    ?_, ?_⟩
  · intro F hF hmatch
    exact find?_eq_some_of_unique _ funcs F hF hmatch
      (fun G hG hmG =>
        bfunMatches_unique funcs Address CheckPastEnd UseMaxSize hord hsz
          G hG F hF hmG hmatch)
  · intro hall
    unfold getBinaryFunctionContainingAddress
    exact List.find?_eq_none.mpr (fun F hF => by simp [hall F hF])

theorem getBinaryFunctionContainingAddress_spec_witness :
    getBinaryFunctionContainingAddress [⟨0, 10, 16⟩, ⟨16, 8, 10⟩] 10 true false =
      some ⟨0, 10, 16⟩ :=
  (getBinaryFunctionContainingAddress_spec [⟨0, 10, 16⟩, ⟨16, 8, 10⟩] 10 true false
      (by decide) (by decide)).2.1 ⟨0, 10, 16⟩ (by decide) (by decide)

/-- C8: `analyzeRelocation` returns failure (`none` — not an exception or
abort, leaving to the caller whether the failure is fatal) for every
relocation kind outside the supported set, and on success returns a record
with all five outputs set: the addend and extracted value are taken from the
relocation, and the symbol outputs are either the referenced symbol (with
`IsSectionRelocation` false) or the section-relative fallback (with
`IsSectionRelocation` true). -/
theorem analyzeRelocation_spec (supported : Nat → Bool)
    (extractValue : Nat → Nat → Nat) (Rel : RelocationRef) :
    (supported Rel.relType = false →
      analyzeRelocation supported extractValue Rel = none) ∧
    (supported Rel.relType = true →
      ∃ r, analyzeRelocation supported extractValue Rel = some r ∧
        r.Addend = Rel.addend ∧
        r.ExtractedValue = extractValue Rel.relType Rel.offset ∧
        ((∃ name, Rel.symbolName = some name ∧ r.SymbolName = name ∧
            r.IsSectionRelocation = false ∧ r.SymbolAddress = Rel.symbolAddress) ∨
          (Rel.symbolName = none ∧ r.SymbolName = Rel.sectionName ∧
            r.IsSectionRelocation = true ∧ r.SymbolAddress = Rel.sectionAddress))) := by
  constructor
  · intro h
    simp [analyzeRelocation, h]
  · intro h
    cases hs : Rel.symbolName with
    | some name =>
        exact ⟨{ SymbolName := name, IsSectionRelocation := false,
                 SymbolAddress := Rel.symbolAddress, Addend := Rel.addend,
                 ExtractedValue := extractValue Rel.relType Rel.offset },
               by simp [analyzeRelocation, h, hs], rfl, rfl,
               Or.inl ⟨name, rfl, rfl, rfl, rfl⟩⟩
    | none =>
        exact ⟨{ SymbolName := Rel.sectionName, IsSectionRelocation := true,
                 SymbolAddress := Rel.sectionAddress, Addend := Rel.addend,
                 ExtractedValue := extractValue Rel.relType Rel.offset },
               by simp [analyzeRelocation, h, hs], rfl, rfl,
               Or.inr ⟨rfl, rfl, rfl, rfl⟩⟩

/-- C1: at the end of a rewrite run every discovered function appears in the
run outcome keyed by its original address — the key set of the outcome is
exactly the key set of `BinaryFunctions`, so no function is dropped — and
every function is assigned exactly one of the three terminal states
emitted-fitting, emitted-split, or preserved-verbatim. -/
theorem runStates_cover (funcs : List FuncRecord) :
    (runStates funcs).map Prod.fst = funcs.map (fun F => F.address) ∧
      ∀ F ∈ funcs, ∃ s, (F.address, s) ∈ runStates funcs ∧
        (s = TerminalState.emittedFitting ∨ s = TerminalState.emittedSplit ∨
          s = TerminalState.preservedVerbatim) := by
  constructor
  · simp [runStates, List.map_map]
  · intro F hF
    refine ⟨terminalState (checkLargeFunctions funcs).2 F, ?_, ?_⟩
    · exact List.mem_map.mpr ⟨F, hF, rfl⟩
    · cases terminalState (checkLargeFunctions funcs).2 F <;> simp

theorem runStates_cover_witness :
    ∃ s, ((5 : Nat), s) ∈ runStates [⟨5, 10, true, 8, 0⟩] ∧
      (s = TerminalState.emittedFitting ∨ s = TerminalState.emittedSplit ∨
        s = TerminalState.preservedVerbatim) :=
  (runStates_cover [⟨5, 10, true, 8, 0⟩]).2 ⟨5, 10, true, 8, 0⟩ (by decide)

/-- C2: a rewrite run performs at most two full emission attempts (a second
one exactly when the fit check after the first attempt annotated some
function), and a function whose hot part still exceeds its original footprint
after the split-emission attempt ends preserved-verbatim in the run outcome —
it is neither re-attempted nor dropped, so the engine terminates. -/
theorem run_attempts_le_two (funcs : List FuncRecord) :
    runEmissionAttempts funcs ≤ 2 ∧
      ∀ F ∈ funcs, F.isSimple = true → F.origSize < F.emittedSize →
        F.origSize < F.splitHotSize →
        (F.address, TerminalState.preservedVerbatim) ∈ runStates funcs := by
  constructor
  · unfold runEmissionAttempts
    split <;> omega
  · intro F hF hsimple hbig hsplitbig
    have hlarge : F.address ∈ (checkLargeFunctions funcs).2 := by
      simp only [checkLargeFunctions, largeFunctionsOf, List.mem_map, List.mem_filter]
      exact ⟨F, ⟨hF, by simp [hsimple, hbig]⟩, rfl⟩
    have hstate : terminalState (checkLargeFunctions funcs).2 F =
        TerminalState.preservedVerbatim := by
      simp only [terminalState, hsimple]
      rw [if_neg (by simp), if_pos hlarge, if_neg (by omega)]
    exact List.mem_map.mpr ⟨F, hF, by rw [hstate]⟩

theorem run_attempts_le_two_witness :
    ((5 : Nat), TerminalState.preservedVerbatim) ∈
      runStates [⟨5, 10, true, 20, 15⟩] :=
  (run_attempts_le_two [⟨5, 10, true, 20, 15⟩]).2 ⟨5, 10, true, 20, 15⟩
    (by decide) (by decide) (by decide) (by decide)

/-- C3: after the first emission attempt, the large-function set holds exactly
the addresses of emitted (simple) functions whose emitted size exceeds their
original size budget; the check returns true iff at least one function was so
annotated; and, assuming functions have distinct addresses, a function whose
emitted size fits its original footprint is never in the large-function set
and never ends in the emitted-split state. -/
theorem checkLargeFunctions_spec (funcs : List FuncRecord) (a : Nat)
    (hnd : (funcs.map (fun F => F.address)).Nodup) :
    (a ∈ (checkLargeFunctions funcs).2 ↔
      ∃ F ∈ funcs, F.address = a ∧ F.isSimple = true ∧ F.origSize < F.emittedSize) ∧
    ((checkLargeFunctions funcs).1 = true ↔ (checkLargeFunctions funcs).2 ≠ []) ∧
    (∀ F ∈ funcs, F.emittedSize ≤ F.origSize →
      F.address ∉ (checkLargeFunctions funcs).2 ∧
        (F.address, TerminalState.emittedSplit) ∉ runStates funcs) := by
  have hinj := List.inj_on_of_nodup_map hnd
  have hmemiff : ∀ b, b ∈ (checkLargeFunctions funcs).2 ↔
      ∃ F ∈ funcs, F.address = b ∧ F.isSimple = true ∧ F.origSize < F.emittedSize := by
    intro b
    simp only [checkLargeFunctions, largeFunctionsOf, List.mem_map, List.mem_filter,
      Bool.and_eq_true, decide_eq_true_eq]
    constructor
    · rintro ⟨F, ⟨hF, hsimp, hbig⟩, rfl⟩
      exact ⟨F, hF, rfl, hsimp, hbig⟩
    · rintro ⟨F, hF, rfl, hsimp, hbig⟩
      exact ⟨F, ⟨hF, hsimp, hbig⟩, rfl⟩
  refine ⟨hmemiff a, ?_, ?_⟩
  · simp [checkLargeFunctions]
  · intro F hF hfit
    have hnotin : F.address ∉ (checkLargeFunctions funcs).2 := by
      intro hmem
      rcases (hmemiff F.address).mp hmem with ⟨G, hG, haddr, _, hbig⟩
      have : G = F := hinj hG hF haddr
      subst this
      omega
    refine ⟨hnotin, ?_⟩
    intro hmem
    rcases List.mem_map.mp hmem with ⟨G, hG, hpair⟩
    have haddr : G.address = F.address := congrArg Prod.fst hpair
    have hGF : G = F := hinj hG hF haddr
    subst hGF
    have hsplit : terminalState (checkLargeFunctions funcs).2 G =
        TerminalState.emittedSplit := congrArg Prod.snd hpair
    unfold terminalState at hsplit
    by_cases hs : G.isSimple = false
    · rw [if_pos hs] at hsplit
      exact absurd hsplit (by simp)
    · rw [if_neg hs, if_neg hnotin] at hsplit
      split at hsplit <;> exact absurd hsplit (by simp)

theorem checkLargeFunctions_spec_witness :
    ((6 : Nat) ∈ (checkLargeFunctions [⟨5, 10, true, 8, 0⟩, ⟨6, 4, true, 9, 2⟩]).2 ↔
      ∃ F ∈ [(⟨5, 10, true, 8, 0⟩ : FuncRecord), ⟨6, 4, true, 9, 2⟩],
        F.address = 6 ∧ F.isSimple = true ∧ F.origSize < F.emittedSize) ∧
    ((checkLargeFunctions [⟨5, 10, true, 8, 0⟩, ⟨6, 4, true, 9, 2⟩]).1 = true ↔
      (checkLargeFunctions [⟨5, 10, true, 8, 0⟩, ⟨6, 4, true, 9, 2⟩]).2 ≠ []) ∧
    (∀ F ∈ [(⟨5, 10, true, 8, 0⟩ : FuncRecord), ⟨6, 4, true, 9, 2⟩],
      F.emittedSize ≤ F.origSize →
        F.address ∉ (checkLargeFunctions [⟨5, 10, true, 8, 0⟩, ⟨6, 4, true, 9, 2⟩]).2 ∧
          (F.address, TerminalState.emittedSplit) ∉
            runStates [⟨5, 10, true, 8, 0⟩, ⟨6, 4, true, 9, 2⟩]) :=
  checkLargeFunctions_spec [⟨5, 10, true, 8, 0⟩, ⟨6, 4, true, 9, 2⟩] 6 (by decide)

theorem analyzeRelocation_spec_witness :
    analyzeRelocation (fun t => t == 1) (fun _ _ => 42)
      ⟨2, 0, 5, none, 0, ".text", 100⟩ = none :=
  (analyzeRelocation_spec (fun t => t == 1) (fun _ _ => 42)
    ⟨2, 0, 5, none, 0, ".text", 100⟩).1 (by decide)

end Bolt
